import Mathlib

/-!
Shallow embedding of the pqc-analyzer matching engine
(`analyzer/analyzer.go`).

Source files are parsed Go ASTs; here the parts of `go/ast` the analyzer
inspects are embedded as inductive types, and `pqcAnalyze` together with
its helpers `getLocalImportName` and `vulnerableFunction` is translated
line by line.  `pass.Reportf` is modelled by threading an accumulator of
diagnostics (the order of `Reportf` calls is the order of the list);
returning a non-nil `error` is modelled by the `Option String` component
of the result, and — as in the Go code — diagnostics reported before the
error return remain in the accumulator.
-/

namespace PqcAnalyzer

/-- Model of `strconv.Unquote` restricted to plain double-quoted literals:
the literal must begin and end with `"` and the interior must contain no
quote, backslash or newline (escape sequences are conservatively rejected;
no theorem below depends on a literal containing an escape).  Inputs not of
this shape fail to decode, as they do in Go. -/
def unquote (s : String) : Option String :=
  match s.data with
  | '"' :: rest =>
    if rest ≠ [] ∧ rest.getLast? = some '"' then
      let inner := rest.dropLast
      if inner.all (fun c => c ≠ '"' && c ≠ '\\' && c ≠ '\n') then
        some (String.mk inner)
      else none
    else none
  | _ => none

/-- `ast.Ident`: an identifier with its source position (`token.Pos`
modelled as `Nat`). -/
structure Ident where
  name : String
  pos : Nat
  deriving Repr, DecidableEq

/-- `ast.BasicLit`: the raw path literal of an import, with its position. -/
structure BasicLit where
  value : String
  pos : Nat
  deriving Repr, DecidableEq

/-- `ast.ImportSpec`: optional explicit alias (`Name`) and the path
literal. -/
structure ImportSpec where
  name : Option Ident
  path : BasicLit
  deriving Repr, DecidableEq

/-- `ast.ImportSpec.Pos()`: the alias position when an explicit alias is
present, otherwise the path literal's position. -/
def ImportSpec.posOf (s : ImportSpec) : Nat :=
  match s.name with
  | some n => n.pos
  | none => s.path.pos

/-- The expression shapes the analyzer distinguishes.  `other` stands for
every remaining `ast.Expr` production (literals, unary ops, ...) with its
subexpressions; the analyzer's type switches send all of them to the
non-matching case. -/
inductive Expr where
  | ident (id : Ident)
  | selector (x : Expr) (sel : Ident)
  | call (fn : Expr) (args : List Expr)
  | binary (lhs rhs : Expr)
  | other (children : List Expr)

/-- The statement shapes the analyzer distinguishes in a function body.
`ifStmt` and `forStmt` carry their nested bodies; the analyzer's `switch`
has no case for them, so their contents are never inspected. -/
inductive Stmt where
  | assign (lhs rhs : List Expr)
  | exprStmt (e : Expr)
  | ifStmt (cond : Expr) (body els : List Stmt)
  | forStmt (body : List Stmt)
  | declStmt

/-- `ast.Decl`: the analyzer only looks at `*ast.FuncDecl`; a `none` body
is a declaration without a body.  `genDecl` stands for every other
declaration kind. -/
inductive Decl where
  | funcDecl (name : String) (body : Option (List Stmt))
  | genDecl

/-- `ast.File`: package identifier (`File.Name`, `none` modelling a nil
pointer), import table, and declarations. -/
structure File where
  name : Option Ident
  imports : List ImportSpec
  decls : List Decl

/-- The three `pass.Reportf` call sites, with the argument interpolated
into their (fixed) format strings:
`"%s uses quantum-vulnerable elliptic curve cryptography"`,
`"%s uses quantum-vulnerable integer factorization cryptography"`, and
`` `function "%s" implements quantum-vulnerable cryptography` ``. -/
inductive Msg where
  | ecMsg (pathValue : String)
  | ifMsg (pathValue : String)
  | callMsg (fnName : String)
  deriving Repr, DecidableEq

/-- A reported diagnostic: position and message. -/
structure Diagnostic where
  pos : Nat
  msg : Msg
  deriving Repr, DecidableEq

/-- `ecImportPaths`: imports flagged as elliptic-curve cryptography. -/
def ecImportPaths : List String :=
  ["crypto/ecdh", "crypto/ecdsa", "crypto/ed25519", "crypto/elliptic"]

/-- `ifImportPaths`: imports flagged as integer-factorization
cryptography. -/
def ifImportPaths : List String :=
  ["crypto/rsa", "crypto/dsa"]

/-- `keyExchangePaths`: imports flagged (by the table's own comment) as
quantum-vulnerable key exchange replaceable by `crypto/mlkem`. -/
def keyExchangePaths : List String :=
  ["crypto/ecdh"]

/-- `QvFunction`: a (function name, package path) pair. -/
structure QvFunction where
  FnName : String
  Package : String
  deriving Repr, DecidableEq

/-- `fnIdentifiers`: functions implementing quantum-vulnerable
algorithms. -/
def fnIdentifiers : List QvFunction :=
  [⟨"DecryptOAEP", "crypto/rsa"⟩,
   ⟨"DecryptPKCS1v15", "crypto/rsa"⟩,
   ⟨"DecryptPKCS1v15SessionKey", "crypto/rsa"⟩,
   ⟨"EncryptOAEP", "crypto/rsa"⟩,
   ⟨"EncryptPKCS1v15", "crypto/rsa"⟩,
   ⟨"SignPKCS1v15", "crypto/rsa"⟩,
   ⟨"SignPSS", "crypto/rsa"⟩,
   ⟨"VerifyPKCS1v15", "crypto/rsa"⟩,
   ⟨"VerifyPSS", "crypto/rsa"⟩,
   ⟨"SignASN1", "crypto/ecdsa"⟩,
   ⟨"VerifyASN1", "crypto/ecdsa"⟩,
   ⟨"NewTripleDESCipher", "crypto/des"⟩,
   ⟨"MarshalPKCS1PrivateKey", "crypto/x509"⟩,
   ⟨"MarshalECPrivateKey", "crypto/x509"⟩,
   ⟨"ParsePKCS1PrivateKey", "crypto/x509"⟩,
   ⟨"ParseECPrivateKey", "crypto/x509"⟩,
   ⟨"Verify", "crypto/dsa"⟩,
   ⟨"Sign", "crypto/dsa"⟩,
   ⟨"GenerateKey", "crypto/dsa"⟩]

/-- `strings.Split(s, "/")` on the character list of `s`: the list of
`/`-separated segments, never empty (the empty string yields `[[]]`, as
`strings.Split("", "/")` yields `[""]`). -/
def splitSlash : List Char → List (List Char)
  | [] => [[]]
  | c :: rest =>
    match splitSlash rest with
    | h :: t => if c = '/' then [] :: h :: t else (c :: h) :: t
    | [] => [[c]]

/-- `strings.HasSuffix`. -/
def hasSuffix (s suffix : String) : Bool :=
  suffix.data.isSuffixOf s.data

/-- `getLocalImportName`: the explicit alias when present, otherwise the
last `/`-separated segment of the decoded path (`strconv.Unquote`'s error
is discarded there, leaving the zero value `""`, exactly as the Go code's
`importPath, _ :=` does). -/
def getLocalImportName (importSpec : ImportSpec) : String :=
  match importSpec.name with
  | some n => n.name
  | none =>
    let importPath := (unquote importSpec.path.value).getD ""
    String.mk ((splitSlash importPath.data).getLastD [])

/-- `vulnerableFunction`: resolve the qualifier against the import table
(first import whose local name matches, as `slices.IndexFunc` does),
decode its path (a decode failure is a silent non-match), require the
member to be an identifier, and look the (name, path) pair up in
`fnIdentifiers`. -/
def vulnerableFunction (imports : List ImportSpec) (localImportName : String)
    (fn : Expr) : String × Bool :=
  match imports.find? (fun importSpec =>
      getLocalImportName importSpec == localImportName) with
  | none => ("", false)
  | some spec =>
    match unquote spec.path.value with
    | none => ("", false)
    | some importPath =>
      let importName := getLocalImportName spec
      match fn with
      | .ident fnIdent =>
        let functionName := fnIdent.name
        match fnIdentifiers.find? (fun qvFunc =>
            qvFunc.FnName == functionName && importPath == qvFunc.Package) with
        | none => ("", false)
        | some q =>
          (importName ++ "." ++ functionName,
           q.FnName == functionName && q.Package == importPath)
      | _ => ("", false)

/-- The shared body of the two call-site checks in `pqcAnalyze` (the
`*ast.AssignStmt` right-hand-side case and the `*ast.ExprStmt` case run
the identical nest of type assertions): a diagnostic is produced exactly
for an expression of shape `qualifier.member(...)` with `qualifier` a
simple identifier, when `vulnerableFunction` reports it vulnerable; the
diagnostic sits at `selector.X.Pos()`. -/
def checkExprForCall (imports : List ImportSpec) : Expr → List Diagnostic
  | .call (.selector (.ident localImportName) sel) _ =>
    match vulnerableFunction imports localImportName.name (.ident sel) with
    | (fnName, true) => [⟨localImportName.pos, .callMsg fnName⟩]
    | (_, false) => []
  | _ => []

/-- The `switch tokenStmt := token.(type)` over one top-level body
statement: assignment right-hand sides and bare expression statements are
scanned for calls; every other statement shape falls through the switch
with no effect. -/
def checkStmt (imports : List ImportSpec) : Stmt → List Diagnostic
  | .assign _ rhs => rhs.flatMap (checkExprForCall imports)
  | .exprStmt e => checkExprForCall imports e
  | _ => []

/-- The per-declaration part of the loop: only function declarations with
a body are walked, one top-level statement at a time. -/
def checkDecl (imports : List ImportSpec) : Decl → List Diagnostic
  | .funcDecl _ (some body) => body.flatMap (checkStmt imports)
  | _ => []

/-- The import loop of `pqcAnalyze`, threading the `pass.Reportf`
accumulator: each import's path literal is decoded; a decode failure
returns the `fmt.Errorf` message at once (diagnostics already reported
stay reported); otherwise membership in `ecImportPaths` and
`ifImportPaths` each contribute one diagnostic at `currImport.Pos()`
whose message interpolates the raw literal. -/
def runImports : List ImportSpec → List Diagnostic →
    List Diagnostic × Option String
  | [], acc => (acc, none)
  | currImport :: rest, acc =>
    match unquote currImport.path.value with
    | none =>
      (acc, some ("failed to analyze package " ++ currImport.path.value ++
        ": invalid syntax"))
    | some importPath =>
      let acc := acc ++
        (if importPath ∈ ecImportPaths then
          [⟨currImport.posOf, .ecMsg currImport.path.value⟩] else []) ++
        (if importPath ∈ ifImportPaths then
          [⟨currImport.posOf, .ifMsg currImport.path.value⟩] else [])
      runImports rest acc

/-- The guard `file.Name != nil && strings.HasSuffix(file.Name.Name,
"_test")` at the top of the file loop. -/
def isTestFile (file : File) : Bool :=
  match file.name with
  | some n => hasSuffix n.name "_test"
  | none => false

/-- One iteration of the file loop: files whose package identifier ends in
`_test` are skipped before anything is examined; otherwise the import
check runs first (an error there aborts the file), then every declaration
is walked. -/
def runFile (file : File) (acc : List Diagnostic) :
    List Diagnostic × Option String :=
  if isTestFile file then
    (acc, none)
  else
    match runImports file.imports acc with
    | (acc', some e) => (acc', some e)
    | (acc', none) =>
      (acc' ++ file.decls.flatMap (checkDecl file.imports), none)

/-- `pqcAnalyze`: the loop over `pass.Files`; an error return from one
file's import check aborts the whole run (the Go function's single
`return nil, err`). -/
def pqcAnalyze : List File → List Diagnostic → List Diagnostic × Option String
  | [], acc => (acc, none)
  | file :: rest, acc =>
    match runFile file acc with
    | (acc', some e) => (acc', some e)
    | (acc', none) => pqcAnalyze rest acc'

/-! ## Pure restatements used to phrase the theorems -/

/-- The diagnostics one decodable import contributes, read off the loop
body of `runImports` (a malformed literal contributes nothing here; the
error path is handled by `runImports` itself). -/
def importDiagsOf (currImport : ImportSpec) : List Diagnostic :=
  match unquote currImport.path.value with
  | none => []
  | some importPath =>
    (if importPath ∈ ecImportPaths then
      [⟨currImport.posOf, .ecMsg currImport.path.value⟩] else []) ++
    (if importPath ∈ ifImportPaths then
      [⟨currImport.posOf, .ifMsg currImport.path.value⟩] else [])

/-! ## Structural lemmas about the import loop -/

/-- When every import decodes, the import loop appends exactly the
per-import diagnostics, in declaration order, and reports no error. -/
theorem runImports_ok (l : List ImportSpec) (acc : List Diagnostic)
    (h : ∀ i ∈ l, (unquote i.path.value).isSome) :
    runImports l acc = (acc ++ l.flatMap importDiagsOf, none) := by
  induction l generalizing acc with
  | nil => simp [runImports]
  | cons i rest ih =>
    have hi : (unquote i.path.value).isSome := h i (List.mem_cons_self i rest)
    rcases hp : unquote i.path.value with _ | p
    · rw [hp] at hi; simp at hi
    · simp only [runImports, hp]
      rw [ih _ (fun j hj => h j (List.mem_cons_of_mem i hj))]
      simp [importDiagsOf, hp, List.append_assoc]

/-- When a malformed import is reached, the loop stops there: the
diagnostics reported so far (those of the decodable imports before it)
stand, the `fmt.Errorf` message is returned, and nothing after the
malformed import is examined. -/
theorem runImports_err (l1 : List ImportSpec) (bad : ImportSpec)
    (l2 : List ImportSpec) (acc : List Diagnostic)
    (h1 : ∀ i ∈ l1, (unquote i.path.value).isSome)
    (hbad : unquote bad.path.value = none) :
    runImports (l1 ++ bad :: l2) acc =
      (acc ++ l1.flatMap importDiagsOf,
       some ("failed to analyze package " ++ bad.path.value ++
         ": invalid syntax")) := by
  induction l1 generalizing acc with
  | nil => simp [runImports, hbad]
  | cons i rest ih =>
    have hi : (unquote i.path.value).isSome := h1 i (List.mem_cons_self i rest)
    rcases hp : unquote i.path.value with _ | p
    · rw [hp] at hi; simp at hi
    · simp only [List.cons_append, runImports, hp, List.append_eq]
      rw [ih _ (fun j hj => h1 j (List.mem_cons_of_mem i hj))]
      simp [importDiagsOf, hp, List.append_assoc]

/-- A non-test file all of whose imports decode contributes its import
diagnostics (in declaration order) followed by its call diagnostics (in
declaration, then statement order). -/
theorem runFile_ok (f : File) (acc : List Diagnostic)
    (hn : isTestFile f = false)
    (h : ∀ i ∈ f.imports, (unquote i.path.value).isSome) :
    runFile f acc =
      (acc ++ (f.imports.flatMap importDiagsOf ++
        f.decls.flatMap (checkDecl f.imports)), none) := by
  unfold runFile
  rw [hn]
  simp only [Bool.false_eq_true, if_false, runImports_ok f.imports acc h,
    List.append_assoc]

/-! ## The claims -/

/-- C1: the claim reads that an import listed under several taxonomy
categories yields one diagnostic per listed category — in particular
importing "crypto/ecdh", listed under both `ecImportPaths` and
`keyExchangePaths`, would yield two diagnostics at the import position.
The code never consults `keyExchangePaths`: the run over a file importing
"crypto/ecdh" emits exactly one diagnostic, the elliptic-curve one. -/
theorem claim1_keyExchange_never_reported :
    "crypto/ecdh" ∈ ecImportPaths ∧ "crypto/ecdh" ∈ keyExchangePaths ∧
    pqcAnalyze [⟨some ⟨"main", 1⟩, [⟨none, ⟨"\"crypto/ecdh\"", 10⟩⟩], []⟩] [] =
      ([⟨10, Msg.ecMsg "\"crypto/ecdh\""⟩], none) :=
  ⟨by decide, by decide, by rfl⟩

/-- C2 counterexample: a file whose import list holds a decodable
vulnerable import ("crypto/rsa" at position 3) followed by a malformed
path literal (`x`, not a quoted string, at position 4) aborts with the
reported error — but the diagnostic for the earlier vulnerable import has
already been reported, refuting "no diagnostics for that file, not even
for vulnerable imports appearing earlier than the malformed one". -/
theorem claim2_counterexample :
    pqcAnalyze [⟨some ⟨"main", 1⟩,
        [⟨none, ⟨"\"crypto/rsa\"", 3⟩⟩, ⟨none, ⟨"x", 4⟩⟩], []⟩] [] =
      ([⟨3, Msg.ifMsg "\"crypto/rsa\""⟩],
       some "failed to analyze package x: invalid syntax") := by rfl

/-- C2 amended: on the first malformed import literal the file's analysis
aborts with the reported error and nothing after that import (neither
later imports nor any declaration) is examined; the diagnostics of the
decodable imports preceding the malformed one, however, have already been
reported and remain — the result is exactly those partial import
diagnostics together with the error. -/
theorem claim2_amended (nm : Option Ident) (l1 l2 : List ImportSpec)
    (bad : ImportSpec) (decls : List Decl)
    (hn : isTestFile ⟨nm, l1 ++ bad :: l2, decls⟩ = false)
    (h1 : ∀ i ∈ l1, (unquote i.path.value).isSome)
    (hbad : unquote bad.path.value = none) :
    pqcAnalyze [⟨nm, l1 ++ bad :: l2, decls⟩] [] =
      (l1.flatMap importDiagsOf,
       some ("failed to analyze package " ++ bad.path.value ++
         ": invalid syntax")) := by
  have hrf : runFile ⟨nm, l1 ++ bad :: l2, decls⟩ [] =
      (l1.flatMap importDiagsOf,
       some ("failed to analyze package " ++ bad.path.value ++
         ": invalid syntax")) := by
    unfold runFile
    rw [hn]
    simp only [Bool.false_eq_true, if_false]
    rw [runImports_err l1 bad l2 [] h1 hbad]
    simp
  simp [pqcAnalyze, hrf]

/-- C2 amended, witnessed at the counterexample file: one earlier
vulnerable import, then the malformed literal. -/
theorem claim2_amended_witness :
    pqcAnalyze [⟨some ⟨"main", 1⟩,
        [⟨none, ⟨"\"crypto/rsa\"", 3⟩⟩] ++ ⟨none, ⟨"x", 4⟩⟩ ::
          ([] : List ImportSpec), []⟩] [] =
      (([⟨none, ⟨"\"crypto/rsa\"", 3⟩⟩] : List ImportSpec).flatMap
          importDiagsOf,
       some ("failed to analyze package " ++ "x" ++ ": invalid syntax")) :=
  claim2_amended (some ⟨"main", 1⟩) [⟨none, ⟨"\"crypto/rsa\"", 3⟩⟩]
    [] ⟨none, ⟨"x", 4⟩⟩ [] (by decide) (by decide) (by decide)

/-- C6: a call whose qualifier is not any import's local alias is a
silent skip: `vulnerableFunction` resolves nothing and returns the
non-match (it has no error channel), and neither a bare call statement
nor an assignment carrying the call produces a diagnostic — whatever the
member name is. -/
theorem claim6_unresolved_alias_silent
    (imports : List ImportSpec) (q sel : Ident) (args lhs : List Expr)
    (h : ∀ s ∈ imports, getLocalImportName s ≠ q.name) :
    vulnerableFunction imports q.name (.ident sel) = ("", false) ∧
    checkStmt imports (.exprStmt (.call (.selector (.ident q) sel) args)) = [] ∧
    checkStmt imports
      (.assign lhs [.call (.selector (.ident q) sel) args]) = [] := by
  have hfind : imports.find?
      (fun s => getLocalImportName s == q.name) = none := by
    rw [List.find?_eq_none]
    intro x hx
    simpa using h x hx
  have hv : vulnerableFunction imports q.name (.ident sel) = ("", false) := by
    unfold vulnerableFunction
    rw [hfind]
  refine ⟨hv, ?_, ?_⟩ <;> simp [checkStmt, checkExprForCall, hv]

/-- C6 witnessed: the file imports only "crypto/ecdsa" (local alias
`ecdsa`), and the call `x.SignPSS(...)` goes through the unrelated
identifier `x` whose member name is a vulnerable function of another
module ("crypto/rsa"); nothing is reported. -/
theorem claim6_witness :
    vulnerableFunction [⟨none, ⟨"\"crypto/ecdsa\"", 2⟩⟩] "x"
      (.ident ⟨"SignPSS", 6⟩) = ("", false) ∧
    checkStmt [⟨none, ⟨"\"crypto/ecdsa\"", 2⟩⟩]
      (.exprStmt (.call (.selector (.ident ⟨"x", 5⟩) ⟨"SignPSS", 6⟩) [])) =
      [] ∧
    checkStmt [⟨none, ⟨"\"crypto/ecdsa\"", 2⟩⟩]
      (.assign [] [.call (.selector (.ident ⟨"x", 5⟩) ⟨"SignPSS", 6⟩) []]) =
      [] :=
  claim6_unresolved_alias_silent [⟨none, ⟨"\"crypto/ecdsa\"", 2⟩⟩]
    ⟨"x", 5⟩ ⟨"SignPSS", 6⟩ [] [] (by decide)

/-- C7: no aggregation or deduplication — the same import declaration
twice contributes its diagnostic once per declaration (here an
elliptic-curve module: two identical diagnostics), and the same matching
statement twice in one body contributes once per statement. -/
theorem claim7_no_dedup (i : ImportSpec) (p : String)
    (imports : List ImportSpec) (n : String) (s : Stmt)
    (hu : unquote i.path.value = some p)
    (hec : p ∈ ecImportPaths) (hif : p ∉ ifImportPaths) :
    runImports [i, i] [] =
      ([⟨i.posOf, .ecMsg i.path.value⟩, ⟨i.posOf, .ecMsg i.path.value⟩],
       none) ∧
    checkDecl imports (.funcDecl n (some [s, s])) =
      checkStmt imports s ++ checkStmt imports s := by
  constructor
  · simp [runImports, hu, hec, hif]
  · simp [checkDecl]

/-- C7 witnessed: importing "crypto/ecdsa" twice yields two identical
diagnostics, and a body holding the matching call `ecdsa.SignASN1()`
twice yields the call's diagnostics twice. -/
theorem claim7_witness :
    runImports [⟨none, ⟨"\"crypto/ecdsa\"", 3⟩⟩,
        ⟨none, ⟨"\"crypto/ecdsa\"", 3⟩⟩] [] =
      ([⟨3, Msg.ecMsg "\"crypto/ecdsa\""⟩,
        ⟨3, Msg.ecMsg "\"crypto/ecdsa\""⟩], none) ∧
    checkDecl [⟨none, ⟨"\"crypto/ecdsa\"", 3⟩⟩]
      (.funcDecl "main" (some
        [.exprStmt (.call (.selector (.ident ⟨"ecdsa", 7⟩)
          ⟨"SignASN1", 8⟩) []),
         .exprStmt (.call (.selector (.ident ⟨"ecdsa", 7⟩)
          ⟨"SignASN1", 8⟩) [])])) =
      checkStmt [⟨none, ⟨"\"crypto/ecdsa\"", 3⟩⟩]
        (.exprStmt (.call (.selector (.ident ⟨"ecdsa", 7⟩)
          ⟨"SignASN1", 8⟩) [])) ++
      checkStmt [⟨none, ⟨"\"crypto/ecdsa\"", 3⟩⟩]
        (.exprStmt (.call (.selector (.ident ⟨"ecdsa", 7⟩)
          ⟨"SignASN1", 8⟩) [])) :=
  claim7_no_dedup ⟨none, ⟨"\"crypto/ecdsa\"", 3⟩⟩ "crypto/ecdsa"
    [⟨none, ⟨"\"crypto/ecdsa\"", 3⟩⟩] "main"
    (.exprStmt (.call (.selector (.ident ⟨"ecdsa", 7⟩) ⟨"SignASN1", 8⟩) []))
    (by decide) (by decide) (by decide)

/-- C9: a file whose package identifier ends in "_test" is skipped whole:
removing it from the analyzed file list changes neither the reported
diagnostics nor the error, whatever imports (well-formed, vulnerable or
malformed) and declarations it holds. -/
theorem claim9_test_files_skipped (f : File) (hf : isTestFile f = true) :
    ∀ (l1 l2 : List File) (acc : List Diagnostic),
      pqcAnalyze (l1 ++ f :: l2) acc = pqcAnalyze (l1 ++ l2) acc := by
  intro l1
  induction l1 with
  | nil =>
    intro l2 acc
    simp [pqcAnalyze, runFile, hf]
  | cons x rest ih =>
    intro l2 acc
    simp only [List.cons_append, pqcAnalyze]
    rcases hx : runFile x acc with ⟨acc', e⟩
    cases e <;> simp [ih]

/-- C9 witnessed: a "_test" file importing both a vulnerable module and a
malformed literal is skipped: the run equals the run on no files at all. -/
theorem claim9_witness :
    pqcAnalyze [⟨some ⟨"analyzer_test", 1⟩,
        [⟨none, ⟨"\"crypto/rsa\"", 3⟩⟩, ⟨none, ⟨"x", 4⟩⟩], []⟩] [] =
      pqcAnalyze [] [] :=
  claim9_test_files_skipped
    ⟨some ⟨"analyzer_test", 1⟩,
      [⟨none, ⟨"\"crypto/rsa\"", 3⟩⟩, ⟨none, ⟨"x", 4⟩⟩], []⟩
    (by decide) [] [] []

/-- C10: in the call-check phase a qualifier resolving to an import whose
path literal does not decode is a silent non-match: `vulnerableFunction`
returns the non-match pair (the function has no error channel), and the
call yields no diagnostic — the fatal malformed-literal error belongs to
the import phase only. -/
theorem claim10_malformed_path_silent_in_call_check
    (imports : List ImportSpec) (spec : ImportSpec) (q sel : Ident)
    (args : List Expr)
    (hfind : imports.find?
      (fun s => getLocalImportName s == q.name) = some spec)
    (hbad : unquote spec.path.value = none) :
    vulnerableFunction imports q.name (.ident sel) = ("", false) ∧
    checkExprForCall imports (.call (.selector (.ident q) sel) args) = [] := by
  have hv : vulnerableFunction imports q.name (.ident sel) = ("", false) := by
    simp [vulnerableFunction, hfind, hbad]
  exact ⟨hv, by simp [checkExprForCall, hv]⟩

/-- C10 witnessed: the only import has the malformed literal `x` but an
explicit alias `m`; the call `m.SignPSS()` resolves to it, and is
silently not matched. -/
theorem claim10_witness :
    vulnerableFunction [⟨some ⟨"m", 1⟩, ⟨"x", 2⟩⟩] "m"
      (.ident ⟨"SignPSS", 6⟩) = ("", false) ∧
    checkExprForCall [⟨some ⟨"m", 1⟩, ⟨"x", 2⟩⟩]
      (.call (.selector (.ident ⟨"m", 5⟩) ⟨"SignPSS", 6⟩) []) = [] :=
  claim10_malformed_path_silent_in_call_check
    [⟨some ⟨"m", 1⟩, ⟨"x", 2⟩⟩] ⟨some ⟨"m", 1⟩, ⟨"x", 2⟩⟩
    ⟨"m", 5⟩ ⟨"SignPSS", 6⟩ [] (by decide) (by decide)

/-- C3: call diagnostics arise only from the two recognized top-level
statement shapes — an assignment with a producing call directly among its
right-hand sides, or a bare expression statement — and a producing
expression is itself exactly of shape `qualifier.member(...)` with an
identifier qualifier; statements of any other shape, in particular
conditionals and loops, produce nothing, whatever statements or calls are
nested inside them. -/
theorem claim3_shallow_traversal (imports : List ImportSpec) :
    (∀ s : Stmt, checkStmt imports s ≠ [] →
      (∃ lhs rhs, s = .assign lhs rhs ∧
        ∃ e ∈ rhs, checkExprForCall imports e ≠ []) ∨
      (∃ e, s = .exprStmt e ∧ checkExprForCall imports e ≠ [])) ∧
    (∀ e : Expr, checkExprForCall imports e ≠ [] →
      ∃ q sel args, e = .call (.selector (.ident q) sel) args) ∧
    (∀ (c : Expr) (body els : List Stmt),
      checkStmt imports (.ifStmt c body els) = []) ∧
    (∀ body : List Stmt, checkStmt imports (.forStmt body) = []) := by
  refine ⟨?_, ?_, fun c body els => rfl, fun body => rfl⟩
  · intro s h
    cases s with
    | assign lhs rhs =>
      left
      refine ⟨lhs, rhs, rfl, ?_⟩
      by_contra hc
      push_neg at hc
      exact h (by simpa [checkStmt] using List.flatMap_eq_nil_iff.mpr hc)
    | exprStmt e => exact Or.inr ⟨e, rfl, h⟩
    | ifStmt c body els => exact absurd rfl h
    | forStmt body => exact absurd rfl h
    | declStmt => exact absurd rfl h
  · intro e h
    cases e with
    | call fn args =>
      cases fn with
      | selector x sel =>
        cases x with
        | ident q => exact ⟨q, sel, args, rfl⟩
        | selector y sel' => exact absurd rfl h
        | call f a => exact absurd rfl h
        | binary l r => exact absurd rfl h
        | other cs => exact absurd rfl h
      | ident i => exact absurd rfl h
      | call f a => exact absurd rfl h
      | binary l r => exact absurd rfl h
      | other cs => exact absurd rfl h
    | ident i => exact absurd rfl h
    | selector x sel => exact absurd rfl h
    | binary l r => exact absurd rfl h
    | other cs => exact absurd rfl h

/-- C3 witnessed: the bare call statement `ecdsa.SignASN1()` produces a
diagnostic, and the theorem places it in the recognized shapes; the same
call wrapped two levels inside a conditional produces nothing. -/
theorem claim3_witness :
    ((∃ lhs rhs,
        Stmt.exprStmt (.call (.selector (.ident ⟨"ecdsa", 7⟩)
          ⟨"SignASN1", 8⟩) []) = Stmt.assign lhs rhs ∧
        ∃ e ∈ rhs,
          checkExprForCall [⟨none, ⟨"\"crypto/ecdsa\"", 2⟩⟩] e ≠ []) ∨
      (∃ e,
        Stmt.exprStmt (.call (.selector (.ident ⟨"ecdsa", 7⟩)
          ⟨"SignASN1", 8⟩) []) = Stmt.exprStmt e ∧
        checkExprForCall [⟨none, ⟨"\"crypto/ecdsa\"", 2⟩⟩] e ≠ [])) ∧
    checkStmt [⟨none, ⟨"\"crypto/ecdsa\"", 2⟩⟩]
      (.ifStmt (.ident ⟨"cond", 3⟩)
        [.ifStmt (.ident ⟨"cond", 4⟩)
          [.exprStmt (.call (.selector (.ident ⟨"ecdsa", 7⟩)
            ⟨"SignASN1", 8⟩) [])] []] []) = [] :=
  ⟨(claim3_shallow_traversal [⟨none, ⟨"\"crypto/ecdsa\"", 2⟩⟩]).1 _
      (by decide),
   (claim3_shallow_traversal [⟨none, ⟨"\"crypto/ecdsa\"", 2⟩⟩]).2.2.1 _ _ _⟩

/-- The first list element satisfying `p`, when `p` holds of `x`, `x` is
in the list, and nothing but `x` satisfies `p` there, is `x` itself. -/
theorem find_first_of_unique {α : Type} (p : α → Bool) (x : α) :
    ∀ l : List α, x ∈ l → p x = true →
      (∀ y ∈ l, p y = true → y = x) → l.find? p = some x := by
  intro l
  induction l with
  | nil => intro hx _ _; cases hx
  | cons a as ih =>
    intro hx hp hu
    by_cases ha : p a = true
    · have hax : a = x := hu a (List.mem_cons_self a as) ha
      subst hax
      exact List.find?_cons_of_pos as ha
    · rw [List.find?_cons_of_neg as (by simpa using ha)]
      rcases List.mem_cons.mp hx with h | h
      · exact absurd (h ▸ hp) ha
      · exact ih h hp (fun y hy hpy => hu y (List.mem_cons_of_mem a hy) hpy)

/-- C4: a call `q.member(...)` at either recognized statement position,
where `q` is the local alias of the (unique) import it resolves to,
whose path decodes to `M`, and `(member, M)` is a vulnerable function
entry, produces exactly one diagnostic, at the qualifier's position,
whose message names the fully qualified call `alias.member`. -/
theorem claim4_vulnerable_call_reported
    (imports : List ImportSpec) (spec : ImportSpec) (M : String)
    (q sel : Ident) (args lhs : List Expr)
    (hmem : spec ∈ imports)
    (hname : getLocalImportName spec = q.name)
    (huniq : ∀ s ∈ imports, getLocalImportName s = q.name → s = spec)
    (hpath : unquote spec.path.value = some M)
    (hvuln : (⟨sel.name, M⟩ : QvFunction) ∈ fnIdentifiers) :
    checkStmt imports (.exprStmt (.call (.selector (.ident q) sel) args)) =
      [⟨q.pos, .callMsg (q.name ++ "." ++ sel.name)⟩] ∧
    checkStmt imports (.assign lhs [.call (.selector (.ident q) sel) args]) =
      [⟨q.pos, .callMsg (q.name ++ "." ++ sel.name)⟩] := by
  have hfind : imports.find?
      (fun s => getLocalImportName s == q.name) = some spec :=
    find_first_of_unique _ spec imports hmem (by simp [hname])
      (fun y hy hpy => huniq y hy (by simpa using hpy))
  have hsome : (fnIdentifiers.find? (fun qvFunc =>
      qvFunc.FnName == sel.name && M == qvFunc.Package)).isSome :=
    List.find?_isSome.mpr ⟨⟨sel.name, M⟩, hvuln, by simp⟩
  obtain ⟨q', hq'⟩ := Option.isSome_iff_exists.mp hsome
  have hpq := List.find?_some hq'
  rw [Bool.and_eq_true, beq_iff_eq, beq_iff_eq] at hpq
  have hv : vulnerableFunction imports q.name (.ident sel) =
      (q.name ++ "." ++ sel.name, true) := by
    simp only [vulnerableFunction, hfind, hpath, hq']
    rw [hname, hpq.1, hpq.2]
    simp
  constructor <;> simp [checkStmt, checkExprForCall, hv]

/-- C4 witnessed at the spec's example: "crypto/ecdsa" imported with its
default alias, `ecdsa.SignASN1()` (bare statement and assignment
right-hand side alike) yields the one diagnostic naming
`ecdsa.SignASN1`, at the qualifier's position 7. -/
theorem claim4_witness :
    checkStmt [⟨none, ⟨"\"crypto/ecdsa\"", 2⟩⟩]
      (.exprStmt (.call (.selector (.ident ⟨"ecdsa", 7⟩)
        ⟨"SignASN1", 8⟩) [])) =
      [⟨7, .callMsg ("ecdsa" ++ "." ++ "SignASN1")⟩] ∧
    checkStmt [⟨none, ⟨"\"crypto/ecdsa\"", 2⟩⟩]
      (.assign [.ident ⟨"sig", 6⟩] [.call (.selector (.ident ⟨"ecdsa", 7⟩)
        ⟨"SignASN1", 8⟩) []]) =
      [⟨7, .callMsg ("ecdsa" ++ "." ++ "SignASN1")⟩] :=
  claim4_vulnerable_call_reported [⟨none, ⟨"\"crypto/ecdsa\"", 2⟩⟩]
    ⟨none, ⟨"\"crypto/ecdsa\"", 2⟩⟩ "crypto/ecdsa" ⟨"ecdsa", 7⟩
    ⟨"SignASN1", 8⟩ [] [.ident ⟨"sig", 6⟩]
    (by decide) (by decide) (by decide) (by decide) (by decide)

/-- C8: for a non-test file all of whose import literals decode, the run
emits exactly the import diagnostics (one flatMap pass over the import
list, in declaration order) followed by the call diagnostics (one flatMap
pass over the declarations, each walking its body statements in order):
imports before declarations, declarations in declaration order,
statements in statement order. -/
theorem claim8_diagnostics_in_file_order (f : File)
    (hn : isTestFile f = false)
    (h : ∀ i ∈ f.imports, (unquote i.path.value).isSome) :
    pqcAnalyze [f] [] =
      (f.imports.flatMap importDiagsOf ++
        f.decls.flatMap (checkDecl f.imports), none) := by
  have hrf := runFile_ok f [] hn h
  rw [List.nil_append] at hrf
  simp [pqcAnalyze, hrf]

/-- C8 witnessed: a file with a vulnerable import and a matching call;
the import diagnostic (position 2) precedes the call diagnostic
(position 7). -/
theorem claim8_witness :
    pqcAnalyze [⟨some ⟨"main", 1⟩, [⟨none, ⟨"\"crypto/ecdsa\"", 2⟩⟩],
        [.funcDecl "main" (some [.exprStmt (.call (.selector
          (.ident ⟨"ecdsa", 7⟩) ⟨"SignASN1", 8⟩) [])])]⟩] [] =
      (([⟨none, ⟨"\"crypto/ecdsa\"", 2⟩⟩] : List ImportSpec).flatMap
          importDiagsOf ++
        ([.funcDecl "main" (some [.exprStmt (.call (.selector
          (.ident ⟨"ecdsa", 7⟩) ⟨"SignASN1", 8⟩) [])])] : List Decl).flatMap
          (checkDecl [⟨none, ⟨"\"crypto/ecdsa\"", 2⟩⟩]), none) :=
  claim8_diagnostics_in_file_order
    ⟨some ⟨"main", 1⟩, [⟨none, ⟨"\"crypto/ecdsa\"", 2⟩⟩],
      [.funcDecl "main" (some [.exprStmt (.call (.selector
        (.ident ⟨"ecdsa", 7⟩) ⟨"SignASN1", 8⟩) [])])]⟩
    (by decide) (by decide)

/-! ## Alias renaming (for the alias-invariance claim)

A file "identical except for the alias name and the corresponding
qualifier at the call sites" is produced by the following rename: an
imported module whose local alias is `a` gets the explicit alias `b`
(at the declaration's own position, so source positions are unaffected),
and every selector qualifier `a` in the file becomes `b`. -/

/-- Rename an identifier when it is the alias `a`. -/
def renameIdent (a b : String) (i : Ident) : Ident :=
  if i.name = a then ⟨b, i.pos⟩ else i

mutual

/-- Rename every selector qualifier named `a` to `b` throughout an
expression (qualifier use is the only way Go source refers to an import
alias). -/
def renameExpr (a b : String) : Expr → Expr
  | .ident i => .ident i
  | .selector (.ident q) sel => .selector (.ident (renameIdent a b q)) sel
  | .selector x sel => .selector (renameExpr a b x) sel
  | .call fn args => .call (renameExpr a b fn) (renameExprList a b args)
  | .binary l r => .binary (renameExpr a b l) (renameExpr a b r)
  | .other cs => .other (renameExprList a b cs)

/-- `renameExpr` over a list of expressions. -/
def renameExprList (a b : String) : List Expr → List Expr
  | [] => []
  | e :: es => renameExpr a b e :: renameExprList a b es

end

mutual

/-- Rename selector qualifiers `a` to `b` throughout a statement,
nested bodies included. -/
def renameStmt (a b : String) : Stmt → Stmt
  | .assign lhs rhs => .assign (renameExprList a b lhs) (renameExprList a b rhs)
  | .exprStmt e => .exprStmt (renameExpr a b e)
  | .ifStmt c body els =>
    .ifStmt (renameExpr a b c) (renameStmtList a b body)
      (renameStmtList a b els)
  | .forStmt body => .forStmt (renameStmtList a b body)
  | .declStmt => .declStmt

/-- `renameStmt` over a list of statements. -/
def renameStmtList (a b : String) : List Stmt → List Stmt
  | [] => []
  | s :: ss => renameStmt a b s :: renameStmtList a b ss

end

/-- Rename throughout a declaration. -/
def renameDecl (a b : String) : Decl → Decl
  | .funcDecl n body => .funcDecl n (body.map (renameStmtList a b))
  | .genDecl => .genDecl

/-- Give the import whose local alias is `a` the explicit alias `b`,
placed at the import's own position so that `ImportSpec.posOf` is
unchanged; other imports are untouched. -/
def renameImportSpec (a b : String) (s : ImportSpec) : ImportSpec :=
  if getLocalImportName s = a then ⟨some ⟨b, s.posOf⟩, s.path⟩ else s

/-- The whole-file rename: same package name, imports and declarations
renamed. -/
def renameFile (a b : String) (f : File) : File :=
  ⟨f.name, f.imports.map (renameImportSpec a b),
   f.decls.map (renameDecl a b)⟩

/-- The qualifier names the call check can ever compare against a file's
imports: qualifiers of directly matched call expressions. -/
def exprQuals : Expr → List String
  | .call (.selector (.ident q) _) _ => [q.name]
  | _ => []

/-- Qualifiers examined in one top-level statement. -/
def stmtQuals : Stmt → List String
  | .assign _ rhs => rhs.flatMap exprQuals
  | .exprStmt e => exprQuals e
  | _ => []

/-- Qualifiers examined in one declaration. -/
def declQuals : Decl → List String
  | .funcDecl _ (some body) => body.flatMap stmtQuals
  | _ => []

/-- Qualifiers examined anywhere in a file's call check. -/
def fileQuals (f : File) : List String :=
  f.decls.flatMap declQuals

/-- How a diagnostic of the original file corresponds to the renamed
file's: identical, or a call diagnostic at the same position whose
message differs only in the alias portion of the qualified name. -/
def diagRel (a b : String) (d d' : Diagnostic) : Prop :=
  d' = d ∨ ∃ m, d.msg = .callMsg (a ++ "." ++ m) ∧
    d'.msg = .callMsg (b ++ "." ++ m) ∧ d'.pos = d.pos

/-! ### Facts about the rename -/

/-- Renaming keeps the path literal. -/
theorem renameImport_path (a b : String) (s : ImportSpec) :
    (renameImportSpec a b s).path = s.path := by
  unfold renameImportSpec
  split <;> rfl

/-- Renaming keeps the import's reported position. -/
theorem renameImport_posOf (a b : String) (s : ImportSpec) :
    (renameImportSpec a b s).posOf = s.posOf := by
  unfold renameImportSpec
  split <;> rfl

/-- The renamed import's local name: `b` where it was `a`, unchanged
elsewhere. -/
theorem renameImport_localName (a b : String) (s : ImportSpec) :
    getLocalImportName (renameImportSpec a b s) =
      if getLocalImportName s = a then b else getLocalImportName s := by
  by_cases h : getLocalImportName s = a
  · simp only [renameImportSpec, if_pos h]
    rfl
  · simp only [renameImportSpec, if_neg h]

/-- An import whose local name is not `a` is untouched. -/
theorem renameImport_id (a b : String) (s : ImportSpec)
    (h : getLocalImportName s ≠ a) : renameImportSpec a b s = s := by
  unfold renameImportSpec
  rw [if_neg h]

/-- The import phase sees nothing of the rename: positions, path literals
and decode results are all preserved, so its diagnostics and error are
identical. -/
theorem runImports_rename (a b : String) (l : List ImportSpec)
    (acc : List Diagnostic) :
    runImports (l.map (renameImportSpec a b)) acc = runImports l acc := by
  induction l generalizing acc with
  | nil => rfl
  | cons i rest ih =>
    simp only [List.map_cons, runImports, renameImport_path,
      renameImport_posOf]
    rcases hu : unquote i.path.value with _ | p
    · rfl
    · exact ih _

/-- Resolving the new alias `b` over the renamed table finds exactly the
renamed version of what resolving `a` finds over the original table,
provided no original import already answered to `b`. -/
theorem find_rename_target (a b : String) (l : List ImportSpec)
    (hb : ∀ s ∈ l, getLocalImportName s ≠ b) :
    (l.map (renameImportSpec a b)).find?
        (fun s => getLocalImportName s == b) =
      (l.find? (fun s => getLocalImportName s == a)).map
        (renameImportSpec a b) := by
  induction l with
  | nil => rfl
  | cons i rest ih =>
    by_cases hi : getLocalImportName i = a
    · have h1 : getLocalImportName (renameImportSpec a b i) = b := by
        rw [renameImport_localName, if_pos hi]
      rw [List.map_cons, List.find?_cons_of_pos _ (by simp [h1]),
        List.find?_cons_of_pos _ (by simp [hi]), Option.map_some']
    · have h1 : getLocalImportName (renameImportSpec a b i) =
          getLocalImportName i := by
        rw [renameImport_localName, if_neg hi]
      have h2 : getLocalImportName i ≠ b := hb i (List.mem_cons_self i rest)
      rw [List.map_cons, List.find?_cons_of_neg _ (by simp [h1, h2]),
        List.find?_cons_of_neg _ (by simp [hi])]
      exact ih (fun s hs => hb s (List.mem_cons_of_mem i hs))

/-- Resolving a qualifier other than `a` and `b` is unaffected by the
rename. -/
theorem find_rename_untouched (a b q : String) (l : List ImportSpec)
    (hq_b : q ≠ b) (hq_a : q ≠ a) :
    (l.map (renameImportSpec a b)).find?
        (fun s => getLocalImportName s == q) =
      l.find? (fun s => getLocalImportName s == q) := by
  induction l with
  | nil => rfl
  | cons i rest ih =>
    by_cases hi : getLocalImportName i = a
    · have h1 : getLocalImportName (renameImportSpec a b i) = b := by
        rw [renameImport_localName, if_pos hi]
      rw [List.map_cons,
        List.find?_cons_of_neg _ (by simp [h1]; exact fun h => hq_b h.symm),
        List.find?_cons_of_neg _ (by simp [hi]; exact fun h => hq_a h.symm)]
      exact ih
    · rw [List.map_cons, renameImport_id a b i hi]
      by_cases hpi : getLocalImportName i = q
      · rw [List.find?_cons_of_pos _ (by simp [hpi]),
          List.find?_cons_of_pos _ (by simp [hpi])]
      · rw [List.find?_cons_of_neg _ (by simp [hpi]),
          List.find?_cons_of_neg _ (by simp [hpi])]
        exact ih

/-- A call through a qualifier other than `a` and `b` matches identically
before and after the rename. -/
theorem vulnFn_rename_untouched (a b q : String) (l : List ImportSpec)
    (fn : Expr) (hq_b : q ≠ b) (hq_a : q ≠ a) :
    vulnerableFunction (l.map (renameImportSpec a b)) q fn =
      vulnerableFunction l q fn := by
  unfold vulnerableFunction
  rw [find_rename_untouched a b q l hq_b hq_a]

/-- A call through the renamed alias: either both sides fail to match
(the non-match pair on both), or both match, the original naming
`a.member` and the renamed one `b.member`. -/
theorem vulnFn_rename_target (a b : String) (l : List ImportSpec)
    (sel : Ident) (hb : ∀ s ∈ l, getLocalImportName s ≠ b) :
    (vulnerableFunction l a (.ident sel) = ("", false) ∧
     vulnerableFunction (l.map (renameImportSpec a b)) b (.ident sel) =
       ("", false)) ∨
    (vulnerableFunction l a (.ident sel) = (a ++ "." ++ sel.name, true) ∧
     vulnerableFunction (l.map (renameImportSpec a b)) b (.ident sel) =
       (b ++ "." ++ sel.name, true)) := by
  rcases hf : l.find? (fun s => getLocalImportName s == a) with _ | spec
  · left
    have hf' : (l.map (renameImportSpec a b)).find?
        (fun s => getLocalImportName s == b) = none := by
      rw [find_rename_target a b l hb, hf]
      rfl
    constructor
    · simp only [vulnerableFunction, hf]
    · simp only [vulnerableFunction, hf']
  · have hspec_a : getLocalImportName spec = a := by
      simpa using List.find?_some hf
    have hlocal : getLocalImportName (renameImportSpec a b spec) = b := by
      rw [renameImport_localName, if_pos hspec_a]
    have hf' : (l.map (renameImportSpec a b)).find?
        (fun s => getLocalImportName s == b) =
          some (renameImportSpec a b spec) := by
      rw [find_rename_target a b l hb, hf]
      rfl
    rcases hu : unquote spec.path.value with _ | M
    · left
      constructor
      · simp only [vulnerableFunction, hf, hu]
      · simp only [vulnerableFunction, hf', renameImport_path, hu]
    · rcases hq : fnIdentifiers.find? (fun qvFunc =>
          qvFunc.FnName == sel.name && M == qvFunc.Package) with _ | q'
      · left
        constructor
        · simp only [vulnerableFunction, hf, hu, hq]
        · simp only [vulnerableFunction, hf', renameImport_path, hu, hq]
      · right
        have hpq := List.find?_some hq
        rw [Bool.and_eq_true, beq_iff_eq, beq_iff_eq] at hpq
        constructor
        · simp only [vulnerableFunction, hf, hu, hq, hspec_a]
          simp [hpq.1, hpq.2]
        · simp only [vulnerableFunction, hf', renameImport_path, hu, hq,
            hlocal]
          simp [hpq.1, hpq.2]

/-- `renameExpr` never turns a non-identifier into an identifier. -/
theorem renameExpr_not_ident (a b : String) (x : Expr)
    (h : ∀ i, x ≠ .ident i) : ∀ i, renameExpr a b x ≠ .ident i := by
  cases x with
  | ident i => exact absurd rfl (h i)
  | selector y sel =>
    cases y <;> intro i <;> simp [renameExpr]
  | call f as => intro i; simp [renameExpr]
  | binary l r => intro i; simp [renameExpr]
  | other cs => intro i; simp [renameExpr]

/-- A call whose selector qualifier is not a plain identifier is never
matched. -/
theorem checkExpr_call_nonident (l : List ImportSpec) (x : Expr)
    (sel : Ident) (args : List Expr) (h : ∀ i, x ≠ .ident i) :
    checkExprForCall l (.call (.selector x sel) args) = [] := by
  cases x with
  | ident i => exact absurd rfl (h i)
  | selector y sel2 => rfl
  | call f as => rfl
  | binary lh rh => rfl
  | other cs => rfl

/-- Renaming relates the diagnostics of one examined expression: equal
lists, or a matched call whose message changes only in the alias
portion. -/
theorem checkExpr_rename (a b : String) (l : List ImportSpec) (e : Expr)
    (hb : ∀ s ∈ l, getLocalImportName s ≠ b)
    (hq : b ∉ exprQuals e) :
    List.Forall₂ (diagRel a b) (checkExprForCall l e)
      (checkExprForCall (l.map (renameImportSpec a b))
        (renameExpr a b e)) := by
  cases e with
  | ident i => exact List.Forall₂.nil
  | binary lh rh => exact List.Forall₂.nil
  | other cs => exact List.Forall₂.nil
  | selector x sel =>
    cases x <;> exact List.Forall₂.nil
  | call fn args =>
    cases fn with
    | ident i => exact List.Forall₂.nil
    | call f as => exact List.Forall₂.nil
    | binary lh rh => exact List.Forall₂.nil
    | other cs => exact List.Forall₂.nil
    | selector x sel =>
      cases x with
      | selector y sel2 =>
        rw [checkExpr_call_nonident l _ sel args (by intro i h; cases h),
          show renameExpr a b (.call (.selector (.selector y sel2) sel) args)
            = .call (.selector (renameExpr a b (.selector y sel2)) sel)
              (renameExprList a b args) from rfl,
          checkExpr_call_nonident _ _ sel _
            (renameExpr_not_ident a b _ (by intro i h; cases h))]
        exact List.Forall₂.nil
      | call f as =>
        rw [checkExpr_call_nonident l _ sel args (by intro i h; cases h),
          show renameExpr a b (.call (.selector (.call f as) sel) args)
            = .call (.selector (renameExpr a b (.call f as)) sel)
              (renameExprList a b args) from rfl,
          checkExpr_call_nonident _ _ sel _
            (renameExpr_not_ident a b _ (by intro i h; cases h))]
        exact List.Forall₂.nil
      | binary lh rh =>
        rw [checkExpr_call_nonident l _ sel args (by intro i h; cases h),
          show renameExpr a b (.call (.selector (.binary lh rh) sel) args)
            = .call (.selector (renameExpr a b (.binary lh rh)) sel)
              (renameExprList a b args) from rfl,
          checkExpr_call_nonident _ _ sel _
            (renameExpr_not_ident a b _ (by intro i h; cases h))]
        exact List.Forall₂.nil
      | other cs =>
        rw [checkExpr_call_nonident l _ sel args (by intro i h; cases h),
          show renameExpr a b (.call (.selector (.other cs) sel) args)
            = .call (.selector (renameExpr a b (.other cs)) sel)
              (renameExprList a b args) from rfl,
          checkExpr_call_nonident _ _ sel _
            (renameExpr_not_ident a b _ (by intro i h; cases h))]
        exact List.Forall₂.nil
      | ident q =>
        have hqb : q.name ≠ b := Ne.symm (by simpa [exprQuals] using hq)
        by_cases hqa : q.name = a
        · have hre : renameExpr a b
              (.call (.selector (.ident q) sel) args) =
              .call (.selector (.ident ⟨b, q.pos⟩) sel)
                (renameExprList a b args) := by
            simp [renameExpr, renameIdent, hqa]
          rw [hre]
          rcases vulnFn_rename_target a b l sel hb with ⟨h1, h2⟩ | ⟨h1, h2⟩
          · simp only [checkExprForCall, hqa, h1, h2]
            exact List.Forall₂.nil
          · simp only [checkExprForCall, hqa, h1, h2]
            exact List.Forall₂.cons (Or.inr ⟨sel.name, rfl, rfl, rfl⟩)
              List.Forall₂.nil
        · have hre : renameExpr a b
              (.call (.selector (.ident q) sel) args) =
              .call (.selector (.ident q) sel)
                (renameExprList a b args) := by
            simp [renameExpr, renameIdent, hqa]
          rw [hre]
          simp only [checkExprForCall,
            vulnFn_rename_untouched a b q.name l (.ident sel) hqb hqa]
          exact List.forall₂_same.mpr (fun d _ => Or.inl rfl)

/-- `checkExpr_rename` lifted over an assignment's right-hand-side
list. -/
theorem checkExprList_rename (a b : String) (l : List ImportSpec)
    (rhs : List Expr) (hb : ∀ s ∈ l, getLocalImportName s ≠ b)
    (hq : b ∉ rhs.flatMap exprQuals) :
    List.Forall₂ (diagRel a b) (rhs.flatMap (checkExprForCall l))
      ((renameExprList a b rhs).flatMap
        (checkExprForCall (l.map (renameImportSpec a b)))) := by
  induction rhs with
  | nil => exact List.Forall₂.nil
  | cons e es ih =>
    rw [List.flatMap_cons, List.mem_append] at hq
    push_neg at hq
    simp only [renameExprList, List.flatMap_cons]
    exact List.rel_append (checkExpr_rename a b l e hb hq.1) (ih hq.2)

/-- Renaming relates the diagnostics of one top-level statement. -/
theorem checkStmt_rename (a b : String) (l : List ImportSpec) (s : Stmt)
    (hb : ∀ sp ∈ l, getLocalImportName sp ≠ b)
    (hq : b ∉ stmtQuals s) :
    List.Forall₂ (diagRel a b) (checkStmt l s)
      (checkStmt (l.map (renameImportSpec a b)) (renameStmt a b s)) := by
  cases s with
  | assign lhs rhs =>
    simp only [checkStmt, renameStmt]
    exact checkExprList_rename a b l rhs hb (by simpa [stmtQuals] using hq)
  | exprStmt e =>
    exact checkExpr_rename a b l e hb (by simpa [stmtQuals] using hq)
  | ifStmt c body els => exact List.Forall₂.nil
  | forStmt body => exact List.Forall₂.nil
  | declStmt => exact List.Forall₂.nil

/-- `checkStmt_rename` lifted over a function body. -/
theorem checkStmtList_rename (a b : String) (l : List ImportSpec)
    (ss : List Stmt) (hb : ∀ sp ∈ l, getLocalImportName sp ≠ b)
    (hq : b ∉ ss.flatMap stmtQuals) :
    List.Forall₂ (diagRel a b) (ss.flatMap (checkStmt l))
      ((renameStmtList a b ss).flatMap
        (checkStmt (l.map (renameImportSpec a b)))) := by
  induction ss with
  | nil => exact List.Forall₂.nil
  | cons s rest ih =>
    rw [List.flatMap_cons, List.mem_append] at hq
    push_neg at hq
    simp only [renameStmtList, List.flatMap_cons]
    exact List.rel_append (checkStmt_rename a b l s hb hq.1) (ih hq.2)

/-- Renaming relates the diagnostics of one declaration. -/
theorem checkDecl_rename (a b : String) (l : List ImportSpec) (d : Decl)
    (hb : ∀ sp ∈ l, getLocalImportName sp ≠ b)
    (hq : b ∉ declQuals d) :
    List.Forall₂ (diagRel a b) (checkDecl l d)
      (checkDecl (l.map (renameImportSpec a b)) (renameDecl a b d)) := by
  cases d with
  | genDecl => exact List.Forall₂.nil
  | funcDecl n body =>
    cases body with
    | none => exact List.Forall₂.nil
    | some stmts =>
      simp only [checkDecl, renameDecl, Option.map_some']
      exact checkStmtList_rename a b l stmts hb (by simpa [declQuals] using hq)

/-- `checkDecl_rename` lifted over a file's declaration list. -/
theorem checkDecls_rename (a b : String) (l : List ImportSpec)
    (ds : List Decl) (hb : ∀ sp ∈ l, getLocalImportName sp ≠ b)
    (hq : b ∉ ds.flatMap declQuals) :
    List.Forall₂ (diagRel a b) (ds.flatMap (checkDecl l))
      ((ds.map (renameDecl a b)).flatMap
        (checkDecl (l.map (renameImportSpec a b)))) := by
  induction ds with
  | nil => exact List.Forall₂.nil
  | cons d rest ih =>
    rw [List.flatMap_cons, List.mem_append] at hq
    push_neg at hq
    simp only [List.map_cons, List.flatMap_cons]
    exact List.rel_append (checkDecl_rename a b l d hb hq.1) (ih hq.2)

/-- Running on exactly one file is running `runFile` once. -/
theorem pqcAnalyze_single (f : File) (acc : List Diagnostic) :
    pqcAnalyze [f] acc = runFile f acc := by
  rcases h : runFile f acc with ⟨d, e⟩
  cases e <;> simp [pqcAnalyze, h]

/-- C5: renaming an import's local alias (same module path) to a fresh
name `b` — one that no import answers to and no examined call qualifier
uses — preserves the error outcome and relates the diagnostic sequences
pointwise: every diagnostic is unchanged except matched-call messages
through the renamed alias, which change only in the alias portion of the
reported qualified name (positions included, nothing else moves). -/
theorem claim5_alias_rename_invariance (a b : String) (f : File)
    (hb_imp : ∀ s ∈ f.imports, getLocalImportName s ≠ b)
    (hb_q : b ∉ fileQuals f) :
    (pqcAnalyze [renameFile a b f] []).2 = (pqcAnalyze [f] []).2 ∧
    List.Forall₂ (diagRel a b) (pqcAnalyze [f] []).1
      (pqcAnalyze [renameFile a b f] []).1 := by
  rw [pqcAnalyze_single, pqcAnalyze_single]
  have ht : isTestFile (renameFile a b f) = isTestFile f := rfl
  by_cases htest : isTestFile f = true
  · have h1 : runFile (renameFile a b f) [] = ([], none) := by
      simp [runFile, ht, htest]
    have h2 : runFile f [] = ([], none) := by
      simp [runFile, htest]
    rw [h1, h2]
    exact ⟨rfl, List.Forall₂.nil⟩
  · rw [Bool.not_eq_true] at htest
    simp only [runFile, ht, htest, Bool.false_eq_true, if_false]
    have himp : (renameFile a b f).imports =
        f.imports.map (renameImportSpec a b) := rfl
    have hdecls : (renameFile a b f).decls =
        f.decls.map (renameDecl a b) := rfl
    rw [himp, hdecls, runImports_rename]
    rcases hr : runImports f.imports [] with ⟨d, e⟩
    cases e with
    | some err =>
      exact ⟨rfl, List.forall₂_same.mpr (fun x _ => Or.inl rfl)⟩
    | none =>
      refine ⟨rfl, ?_⟩
      refine List.rel_append ?_
        (checkDecls_rename a b f.imports f.decls hb_imp hb_q)
      exact List.forall₂_same.mpr (fun x _ => Or.inl rfl)

/-- C5 witnessed at the spec's example: "crypto/ecdsa" aliased `c` with
the call `c.SignASN1()`, renamed to alias `d`. -/
theorem claim5_witness :
    (pqcAnalyze [renameFile "c" "d"
        ⟨some ⟨"main", 1⟩, [⟨some ⟨"c", 2⟩, ⟨"\"crypto/ecdsa\"", 3⟩⟩],
         [.funcDecl "main" (some [.exprStmt (.call (.selector
           (.ident ⟨"c", 7⟩) ⟨"SignASN1", 8⟩) [])])]⟩] []).2 =
      (pqcAnalyze [⟨some ⟨"main", 1⟩,
        [⟨some ⟨"c", 2⟩, ⟨"\"crypto/ecdsa\"", 3⟩⟩],
        [.funcDecl "main" (some [.exprStmt (.call (.selector
          (.ident ⟨"c", 7⟩) ⟨"SignASN1", 8⟩) [])])]⟩] []).2 ∧
    List.Forall₂ (diagRel "c" "d")
      (pqcAnalyze [⟨some ⟨"main", 1⟩,
        [⟨some ⟨"c", 2⟩, ⟨"\"crypto/ecdsa\"", 3⟩⟩],
        [.funcDecl "main" (some [.exprStmt (.call (.selector
          (.ident ⟨"c", 7⟩) ⟨"SignASN1", 8⟩) [])])]⟩] []).1
      (pqcAnalyze [renameFile "c" "d"
        ⟨some ⟨"main", 1⟩, [⟨some ⟨"c", 2⟩, ⟨"\"crypto/ecdsa\"", 3⟩⟩],
         [.funcDecl "main" (some [.exprStmt (.call (.selector
           (.ident ⟨"c", 7⟩) ⟨"SignASN1", 8⟩) [])])]⟩] []).1 :=
  claim5_alias_rename_invariance "c" "d"
    ⟨some ⟨"main", 1⟩, [⟨some ⟨"c", 2⟩, ⟨"\"crypto/ecdsa\"", 3⟩⟩],
     [.funcDecl "main" (some [.exprStmt (.call (.selector
       (.ident ⟨"c", 7⟩) ⟨"SignASN1", 8⟩) [])])]⟩
    (by decide) (by decide)

end PqcAnalyzer
